import Mathlib

/-!
Shallow embedding of `src/code_line_counter.py` (flaming999/CodeLineCounter).

The program walks a directory tree, classifies each file's lines as
blank / comment / code according to a per-language comment grammar, and
accumulates per-language and total statistics.  Python strings are modelled
as Lean `String`s; Python string primitives used by the source
(`str.strip`, `str.lower`, substring containment via `in`,
`str.startswith`, `pathlib.Path.suffix`) are embedded below as executable
functions over the character list of a string.  File reading and the
directory walk are modelled by an explicit filesystem value: a file entry
carries `Option (List String)` (`none` means the file cannot be read or
decoded; `some lines` is the result of `readlines`).
-/

namespace CodeLineCounter

/-- Does `s` start with the character list `p`?  Embeds Python
`s.startswith(p)` (over the underlying characters). -/
def listStartsWith : List Char → List Char → Bool
  | [], _ => true
  | _ :: _, [] => false
  | p :: ps, c :: cs => p == c && listStartsWith ps cs

/-- Does the character list contain `pat` as a contiguous subsequence?
Embeds Python substring containment `pat in s`. -/
def listContainsSeq (pat : List Char) : List Char → Bool
  | [] => listStartsWith pat []
  | c :: cs => listStartsWith pat (c :: cs) || listContainsSeq pat cs

/-- Python `pat in s` (substring containment). -/
def strContains (s pat : String) : Bool :=
  listContainsSeq pat.data s.data

/-- Python `s.startswith(pat)`. -/
def strStartsWith (s pat : String) : Bool :=
  listStartsWith pat.data s.data

/-- Python `s.strip()`: drop leading and trailing whitespace. -/
def pyStrip (s : String) : String :=
  String.mk (((s.data.dropWhile Char.isWhitespace).reverse.dropWhile
    Char.isWhitespace).reverse)

/-- Python `s.lower()` (the source only lowercases ASCII extensions). -/
def pyLower (s : String) : String :=
  String.mk (s.data.map Char.toLower)

/-- Index of the last occurrence of `'.'` in a character list
(Python `name.rfind('.')`, `none` when absent). -/
def rfindDot : List Char → Option Nat
  | [] => none
  | c :: cs =>
    match rfindDot cs with
    | some i => some (i + 1)
    | none => if c = '.' then some 0 else none

/-- Python `pathlib.Path(p).suffix` applied to a final path component
`name`: the substring from the last dot, provided that dot is neither the
first character nor the last one; otherwise the empty string.  (In the
source the suffix of a full path equals the suffix of its final component,
which in our filesystem model is the entry's `name`.) -/
def pathSuffix (name : String) : String :=
  match rfindDot name.data with
  | some i => if 0 < i && i < name.data.length - 1
      then String.mk (name.data.drop i) else ""
  | none => ""

/-- Python truthiness of an optional string: `None` and `''` are falsy. -/
def strTruthy : Option String → Bool
  | none => false
  | some s => !(s == "")

/-- The string held by an optional marker (only read under `strTruthy`). -/
def optStr : Option String → String
  | none => ""
  | some s => s

/-- One entry of `language_configs`: the comment grammar of a language. -/
structure LanguageConfig where
  extensions : List String
  line_comment : Option String
  block_comment_start : Option String
  block_comment_end : Option String
deriving DecidableEq, Repr

/-- The `language_configs` table of `CodeLineCounter.__init__`, in its
registration (insertion) order. -/
def language_configs : List (String × LanguageConfig) :=
  [ ("python",
      { extensions := [".py"], line_comment := some "#",
        block_comment_start := none, block_comment_end := none }),
    ("java",
      { extensions := [".java"], line_comment := some "//",
        block_comment_start := some "/*", block_comment_end := some "*/" }),
    ("cpp",
      { extensions := [".cpp", ".cc", ".cxx", ".c", ".h", ".hpp", ".hh", ".hxx"],
        line_comment := some "//",
        block_comment_start := some "/*", block_comment_end := some "*/" }),
    ("go",
      { extensions := [".go"], line_comment := some "//",
        block_comment_start := some "/*", block_comment_end := some "*/" }),
    ("javascript",
      { extensions := [".js", ".jsx", ".ts", ".tsx"], line_comment := some "//",
        block_comment_start := some "/*", block_comment_end := some "*/" }),
    ("html",
      { extensions := [".html", ".htm"], line_comment := none,
        block_comment_start := some "<!--", block_comment_end := some "-->" }),
    ("css",
      { extensions := [".css"], line_comment := none,
        block_comment_start := some "/*", block_comment_end := some "*/" }) ]

/-- `CodeLineCounter.get_language_by_extension`: scan the registered
grammars in registration order and return the first language whose
extension list contains the lowercased input. -/
def get_language_by_extension (extension : String) : Option String :=
  (language_configs.find?
    (fun p => p.snd.extensions.contains (pyLower extension))).map Prod.fst

/-- `CodeLineCounter.is_blank_line`. -/
def is_blank_line (line : String) : Bool :=
  pyStrip line == ""

/-- The mutable per-call state of the classification loop in
`count_lines_in_file`: the `in_block_comment` flag and the three counters. -/
structure CountState where
  in_block_comment : Bool
  blank_lines : Nat
  comment_lines : Nat
  code_lines : Nat
deriving DecidableEq, Repr

/-- The tail of the loop body of `count_lines_in_file`: the line-comment
check that a non-blank line falls through to when no block-comment case
applied (`if line_comment and stripped_line.startswith(line_comment)`). -/
def lineCommentCheck (config : LanguageConfig) (s : CountState)
    (stripped_line : String) : CountState :=
  if strTruthy config.line_comment
      && strStartsWith stripped_line (optStr config.line_comment) then
    { s with comment_lines := s.comment_lines + 1 }
  else
    { s with code_lines := s.code_lines + 1 }

/-- One iteration of the `for line in lines` loop of
`count_lines_in_file`, following the source's exact branch order. -/
def processLine (config : LanguageConfig) (s : CountState) (line : String) :
    CountState :=
  let stripped_line := pyStrip line
  if is_blank_line line then
    { s with blank_lines := s.blank_lines + 1 }
  else if strTruthy config.block_comment_start
      && strTruthy config.block_comment_end then
    let start := optStr config.block_comment_start
    let stop := optStr config.block_comment_end
    if strContains stripped_line start && strContains stripped_line stop then
      { s with comment_lines := s.comment_lines + 1 }
    else if strContains stripped_line start && !s.in_block_comment then
      { s with in_block_comment := true, comment_lines := s.comment_lines + 1 }
    else if strContains stripped_line stop && s.in_block_comment then
      { s with in_block_comment := false, comment_lines := s.comment_lines + 1 }
    else if s.in_block_comment then
      { s with comment_lines := s.comment_lines + 1 }
    else
      lineCommentCheck config s stripped_line
  else
    lineCommentCheck config s stripped_line

/-- The whole classification loop of `count_lines_in_file`, starting from
`in_block_comment = False` and zero counters. -/
def classify (config : LanguageConfig) (lines : List String) : CountState :=
  lines.foldl (processLine config)
    { in_block_comment := false, blank_lines := 0, comment_lines := 0,
      code_lines := 0 }

/-- The dict returned by `count_lines_in_file` on success. -/
structure FileResult where
  language : String
  total_lines : Nat
  code_lines : Nat
  comment_lines : Nat
  blank_lines : Nat
deriving DecidableEq, Repr

/-- The `_TRANSLATIONS` dictionary of the i18n support, as an association
list in the source's insertion order. -/
def _TRANSLATIONS : List (String × List (String × String)) :=
  [ ("en",
      [ ("Code Line Counter", "Code Line Counter"),
        ("Total", "Total"),
        ("Files", "Files"),
        ("Total Lines", "Total Lines"),
        ("Code Lines", "Code Lines"),
        ("Comment Lines", "Comment Lines"),
        ("Blank Lines", "Blank Lines"),
        ("Code Line Ratio", "Code Line Ratio"),
        ("Comment Line Ratio", "Comment Line Ratio"),
        ("Blank Line Ratio", "Blank Line Ratio"),
        ("Failed to read file", "Failed to read file"),
        ("Code Line Statistics Results", "Code Line Statistics Results"),
        ("File Count", "File Count") ]),
    ("chs",
      [ ("Code Line Counter", "代码行数统计工具"),
        ("Total", "总计"),
        ("Files", "文件数量"),
        ("Total Lines", "总行数"),
        ("Code Lines", "代码行"),
        ("Comment Lines", "注释行"),
        ("Blank Lines", "空行"),
        ("Code Line Ratio", "代码行占比"),
        ("Comment Line Ratio", "注释行占比"),
        ("Blank Line Ratio", "空行占比"),
        ("Failed to read file", "读取文件失败"),
        ("Code Line Statistics Results", "代码行数统计结果"),
        ("File Count", "文件数量") ]),
    ("cht",
      [ ("Code Line Counter", "程式碼行數統計工具"),
        ("Total", "總計"),
        ("Files", "檔案數量"),
        ("Total Lines", "總行數"),
        ("Code Lines", "程式碼行"),
        ("Comment Lines", "註解行"),
        ("Blank Lines", "空白行"),
        ("Code Line Ratio", "程式碼行佔比"),
        ("Comment Line Ratio", "註解行佔比"),
        ("Blank Line Ratio", "空白行佔比"),
        ("Failed to read file", "讀取檔案失敗"),
        ("Code Line Statistics Results", "程式碼行數統計結果"),
        ("File Count", "檔案數量") ]),
    ("ja",
      [ ("Code Line Counter", "コード行数カウンター"),
        ("Total", "合計"),
        ("Files", "ファイル数"),
        ("Total Lines", "総行数"),
        ("Code Lines", "コード行"),
        ("Comment Lines", "コメント行"),
        ("Blank Lines", "空白行"),
        ("Code Line Ratio", "コード行の割合"),
        ("Comment Line Ratio", "コメント行の割合"),
        ("Blank Line Ratio", "空白行の割合"),
        ("Failed to read file", "ファイルの読み取りに失敗しました"),
        ("Code Line Statistics Results", "コード行数統計結果"),
        ("File Count", "ファイル数") ]) ]

/-- Association-list lookup (Python `dict.get`). -/
def dictGet (l : List (String × String)) (key : String) : Option String :=
  (l.find? (fun p => p.fst == key)).map Prod.snd

/-- The translation function `_t`.  The global `_CURRENT_LANG` is made an
explicit argument `current` (its value during the run). -/
def _t (current : String) (key : String) : String :=
  let trans_dict :=
    match _TRANSLATIONS.find? (fun p => p.fst == current) with
    | some p => p.snd
    | none =>
      match _TRANSLATIONS.find? (fun p => p.fst == "en") with
      | some p => p.snd
      | none => []
  match dictGet trans_dict key with
  | some v => v
  | none => key

/-- `i18n_setlang`: the new value of `_CURRENT_LANG` after the call
(`current` is its previous value; unsupported codes leave it unchanged). -/
def i18n_setlang (current : String) (lang_code : String) : String :=
  if (_TRANSLATIONS.find? (fun p => p.fst == lang_code)).isSome
  then lang_code else current

/-- A regular file in the modelled filesystem.  `content` is the outcome
of opening and reading the file: `none` when the read raises (the file
cannot be read or decoded), `some lines` for the `readlines` result.
`err` is the text of the exception in the unreadable case. -/
structure FileEntry where
  name : String
  content : Option (List String)
  err : String
deriving DecidableEq, Repr

/-- `CodeLineCounter.count_lines_in_file` on file `f` at path
`file_path`.  Returns the result dict (`none` on read failure or
unrecognized extension) together with the warning lines printed by the
call.  The source looks the language name up with
`get_language_by_extension` and then reads `language_configs[language]`;
since the table's keys are distinct, the fused `find?` below returns
exactly that name/config pair. -/
def count_lines_in_file (current : String) (file_path : String)
    (f : FileEntry) : Option FileResult × List String :=
  match f.content with
  | none =>
    (none,
      [_t current "Failed to read file" ++ " " ++ file_path ++ ": " ++ f.err])
  | some lines =>
    let extension := pathSuffix f.name
    match language_configs.find?
        (fun p => p.snd.extensions.contains (pyLower extension)) with
    | none => (none, [])
    | some (language, config) =>
      let st := classify config lines
      (some { language := language, total_lines := lines.length,
              code_lines := st.code_lines, comment_lines := st.comment_lines,
              blank_lines := st.blank_lines }, [])

/-- One row of `self.stats` / `self.total_stats`. -/
structure Counts where
  files : Nat
  total_lines : Nat
  code_lines : Nat
  comment_lines : Nat
  blank_lines : Nat
deriving DecidableEq, Repr

/-- The zero row every `defaultdict` entry starts from. -/
def Counts.zero : Counts :=
  { files := 0, total_lines := 0, code_lines := 0, comment_lines := 0,
    blank_lines := 0 }

/-- The `+=` block of `scan_directory` applied to one accumulator row. -/
def bumpCounts (c : Counts) (r : FileResult) : Counts :=
  { files := c.files + 1,
    total_lines := c.total_lines + r.total_lines,
    code_lines := c.code_lines + r.code_lines,
    comment_lines := c.comment_lines + r.comment_lines,
    blank_lines := c.blank_lines + r.blank_lines }

/-- The mutable state of a `CodeLineCounter` during `scan_directory`:
`self.stats` (a `defaultdict`, modelled as a total function that is
`Counts.zero` off its support), `self.total_stats`, and the warning lines
printed so far. -/
structure ScanState where
  stats : String → Counts
  total_stats : Counts
  warnings : List String

/-- The accumulators as `__init__` creates them. -/
def initState : ScanState :=
  { stats := fun _ => Counts.zero, total_stats := Counts.zero, warnings := [] }

/-- The `include_extensions` skip test of `scan_directory`
(`if include_extensions and extension.lower() not in include_extensions`):
Python truthiness makes `None` and the empty list skip nothing. -/
def skipByInclude (include_extensions : Option (List String))
    (extension : String) : Bool :=
  match include_extensions with
  | none => false
  | some exts => !exts.isEmpty && !(exts.contains (pyLower extension))

/-- The per-file body of `scan_directory`'s inner loop: the include
filter, the call to `count_lines_in_file`, and (when a result came back)
the merge into `self.stats[lang]` and `self.total_stats`. -/
def processFile (current : String) (include_extensions : Option (List String))
    (root : String) (st : ScanState) (f : FileEntry) : ScanState :=
  let file_path := root ++ "/" ++ f.name
  let extension := pathSuffix f.name
  if skipByInclude include_extensions extension then st
  else
    match count_lines_in_file current file_path f with
    | (some result, ws) =>
      { stats := fun l => if l = result.language
          then bumpCounts (st.stats l) result else st.stats l,
        total_stats := bumpCounts st.total_stats result,
        warnings := st.warnings ++ ws }
    | (none, ws) => { st with warnings := st.warnings ++ ws }

mutual
/-- A directory in the modelled filesystem. -/
inductive DirTree where
  | node : String → List FileEntry → DirForest → DirTree

/-- The ordered subdirectories of a directory. -/
inductive DirForest where
  | nil : DirForest
  | cons : DirTree → DirForest → DirForest
end

/-- The name of a directory. -/
def DirTree.name : DirTree → String
  | .node n _ _ => n

/-- The files directly inside a directory. -/
def DirTree.files : DirTree → List FileEntry
  | .node _ fs _ => fs

/-- The subdirectories of a directory. -/
def DirTree.subdirs : DirTree → DirForest
  | .node _ _ ds => ds

/-- Concatenation of sibling-directory sequences. -/
def DirForest.append : DirForest → DirForest → DirForest
  | .nil, g => g
  | .cons d ds, g => .cons d (ds.append g)

mutual
/-- The `os.walk` loop of `scan_directory` on one directory whose path is
`path`: process the directory's files, then descend (top-down, in order)
into the subdirectories.  The pruning assignment
`dirs[:] = [d for d in dirs if d not in exclude_dirs]` runs before any
descent, so an excluded subdirectory's whole subtree is never visited;
`walkForest` realizes that by skipping excluded names. -/
def walkTree (current : String) (incl : Option (List String))
    (excl : List String) : String → DirTree → ScanState → ScanState
  | path, DirTree.node _ files subdirs, st =>
    walkForest current incl excl path subdirs
      (files.foldl (processFile current incl path) st)

/-- Walk the (already pruned-on-the-fly) subdirectories in order. -/
def walkForest (current : String) (incl : Option (List String))
    (excl : List String) : String → DirForest → ScanState → ScanState
  | _, DirForest.nil, st => st
  | path, DirForest.cons d ds, st =>
    walkForest current incl excl path ds
      (if excl.contains d.name then st
       else walkTree current incl excl (path ++ "/" ++ d.name) d st)
end

/-- The default `exclude_dirs` set of `scan_directory`. -/
def default_exclude_dirs : List String :=
  [".git", "__pycache__", "node_modules", ".vscode", ".idea"]

/-- `CodeLineCounter.scan_directory`.  `fs_root` is what the filesystem
holds at `directory_path`: `none` models a root path that does not exist
or cannot be read, on which `os.walk` yields no entries at all (errors
from `scandir` go to the default `onerror=None` and are ignored), so the
method returns with the accumulators untouched and nothing printed. -/
def scan_directory (current : String) (fs_root : Option DirTree)
    (directory_path : String) (exclude_dirs : Option (List String))
    (include_extensions : Option (List String)) : ScanState :=
  let excl :=
    match exclude_dirs with
    | none => default_exclude_dirs
    | some e => e
  match fs_root with
  | none => initState
  | some t => walkTree current include_extensions excl directory_path t initState

/-! ## Spec-side statement of the per-line precedence (for the refinement
claim about the classifier). -/

/-- The label the spec assigns to one line. -/
inductive LineLabel where
  | blank : LineLabel
  | comment : LineLabel
  | code : LineLabel
deriving DecidableEq, Repr

/-- Spec-side fallthrough: a line whose stripped form starts with the
line-comment marker is a comment, else it is code; the block flag is
unchanged. -/
def specLineComment (config : LanguageConfig) (flag : Bool)
    (stripped : String) : LineLabel × Bool :=
  match config.line_comment with
  | some lc =>
    if strStartsWith stripped lc then (LineLabel.comment, flag)
    else (LineLabel.code, flag)
  | none => (LineLabel.code, flag)

/-- The per-line decision exactly as the spec words it: blank first; then,
when the grammar has a block pair, the four block-comment cases in order
(both markers / start while flag false / end while flag true / flag true);
then the line-comment check; else code.  Returns the label and the new
block flag. -/
def specClassify (config : LanguageConfig) (flag : Bool) (line : String) :
    LineLabel × Bool :=
  let stripped := pyStrip line
  if stripped == "" then (LineLabel.blank, flag)
  else
    match config.block_comment_start, config.block_comment_end with
    | some start, some stop =>
      if strContains stripped start && strContains stripped stop then
        (LineLabel.comment, flag)
      else if strContains stripped start && !flag then
        (LineLabel.comment, true)
      else if strContains stripped stop && flag then
        (LineLabel.comment, false)
      else if flag then
        (LineLabel.comment, flag)
      else
        specLineComment config flag stripped
    | _, _ => specLineComment config flag stripped

/-- Apply a spec decision to the loop state: increment the counter of the
label and store the new flag. -/
def applyLabel (s : CountState) (lb : LineLabel × Bool) : CountState :=
  match lb.fst with
  | LineLabel.blank =>
    { s with blank_lines := s.blank_lines + 1, in_block_comment := lb.snd }
  | LineLabel.comment =>
    { s with comment_lines := s.comment_lines + 1, in_block_comment := lb.snd }
  | LineLabel.code =>
    { s with code_lines := s.code_lines + 1, in_block_comment := lb.snd }

/-- A grammar with no degenerate (empty-string) markers; every grammar in
`language_configs` satisfies this. -/
def WFgrammar (c : LanguageConfig) : Prop :=
  c.block_comment_start ≠ some "" ∧ c.block_comment_end ≠ some ""
    ∧ c.line_comment ≠ some ""

/-- Spec-side description of registry resolution (for the resolution
claim): scan the registered grammars in registration order and return the
first whose extension set contains the lowercased input; no match gives
`none`. -/
def resolveSpec (extension : String) :
    List (String × LanguageConfig) → Option String
  | [] => none
  | (lang, config) :: rest =>
    if config.extensions.contains (pyLower extension) then some lang
    else resolveSpec extension rest

/-- The accumulator part of one file's processing in `scan_directory`
(the stats/total projection of `processFile`, with the warning output and
the path dropped — neither influences the accumulators); used to state
and prove order-independence of the aggregation. -/
def statsStep (incl : Option (List String)) (p : (String → Counts) × Counts)
    (f : FileEntry) : (String → Counts) × Counts :=
  if skipByInclude incl (pathSuffix f.name) then p
  else
    match (count_lines_in_file "en" "" f).fst with
    | some r =>
      (fun l => if l = r.language then bumpCounts (p.fst l) r else p.fst l,
        bumpCounts p.snd r)
    | none => p

/-! ## Lemmas about the classifier -/

/-- A nonempty string is `==`-distinct from the empty string. -/
theorem beq_false_of_ne (a : String) (h : a ≠ "") : (a == "") = false :=
  beq_eq_false_iff_ne.mpr h

/-- For a grammar with no empty markers, one loop iteration of the
classifier implements exactly the spec's per-line decision. -/
theorem refine_step (config : LanguageConfig) (hwf : WFgrammar config)
    (s : CountState) (line : String) :
    processLine config s line
      = applyLabel s (specClassify config s.in_block_comment line) := by
  obtain ⟨h1, h2, h3⟩ := hwf
  cases hbs : config.block_comment_start with
  | none =>
    cases hlc : config.line_comment with
    | none =>
      simp only [processLine, specClassify, is_blank_line, lineCommentCheck,
        specLineComment, applyLabel, hbs, hlc, strTruthy, optStr,
        Bool.false_and, Bool.false_eq_true, if_false]
      split_ifs <;> first | rfl | simp_all
    | some lc =>
      have hlcne : lc ≠ "" := fun h => h3 (by rw [hlc, h])
      simp only [processLine, specClassify, is_blank_line, lineCommentCheck,
        specLineComment, applyLabel, hbs, hlc, strTruthy, optStr,
        beq_false_of_ne lc hlcne, Bool.not_false, Bool.true_and,
        Bool.false_and, Bool.false_eq_true, if_false]
      split_ifs <;> first | rfl | simp_all
  | some a =>
    cases hbe : config.block_comment_end with
    | none =>
      cases hlc : config.line_comment with
      | none =>
        simp only [processLine, specClassify, is_blank_line, lineCommentCheck,
          specLineComment, applyLabel, hbs, hbe, hlc, strTruthy, optStr,
          Bool.and_false, Bool.false_eq_true, if_false]
        split_ifs <;> first | rfl | simp_all
      | some lc =>
        have hlcne : lc ≠ "" := fun h => h3 (by rw [hlc, h])
        simp only [processLine, specClassify, is_blank_line, lineCommentCheck,
          specLineComment, applyLabel, hbs, hbe, hlc, strTruthy, optStr,
          beq_false_of_ne lc hlcne, Bool.not_false, Bool.true_and,
          Bool.and_false, Bool.false_eq_true, if_false]
        split_ifs <;> first | rfl | simp_all
    | some b =>
      have hane : a ≠ "" := fun h => h1 (by rw [hbs, h])
      have hbne : b ≠ "" := fun h => h2 (by rw [hbe, h])
      cases hlc : config.line_comment with
      | none =>
        simp only [processLine, specClassify, is_blank_line, lineCommentCheck,
          specLineComment, applyLabel, hbs, hbe, hlc, strTruthy, optStr,
          beq_false_of_ne a hane, beq_false_of_ne b hbne,
          Bool.not_false, Bool.true_and, Bool.and_self, if_true]
        split_ifs <;> first | rfl | simp_all
      | some lc =>
        have hlcne : lc ≠ "" := fun h => h3 (by rw [hlc, h])
        simp only [processLine, specClassify, is_blank_line, lineCommentCheck,
          specLineComment, applyLabel, hbs, hbe, hlc, strTruthy, optStr,
          beq_false_of_ne a hane, beq_false_of_ne b hbne,
          beq_false_of_ne lc hlcne,
          Bool.not_false, Bool.true_and, Bool.and_self, if_true]
        split_ifs <;> first | rfl | simp_all

/-- Every loop iteration increments exactly one of the three counters. -/
theorem processLine_sum (config : LanguageConfig) (s : CountState)
    (line : String) :
    (processLine config s line).blank_lines
      + (processLine config s line).comment_lines
      + (processLine config s line).code_lines
      = s.blank_lines + s.comment_lines + s.code_lines + 1 := by
  simp only [processLine, lineCommentCheck]
  split_ifs <;> simp <;> omega

/-- Summed over the loop, the three counters grow by the number of lines. -/
theorem foldl_processLine_sum (config : LanguageConfig) (lines : List String) :
    ∀ s : CountState,
      (lines.foldl (processLine config) s).blank_lines
        + (lines.foldl (processLine config) s).comment_lines
        + (lines.foldl (processLine config) s).code_lines
      = s.blank_lines + s.comment_lines + s.code_lines + lines.length := by
  induction lines with
  | nil => intro s; simp
  | cons l ls ih =>
    intro s
    simp only [List.foldl_cons, List.length_cons]
    rw [ih (processLine config s l)]
    have := processLine_sum config s l
    omega

/-! ## Claim theorems -/

/-- Claim C1: for every grammar (with no degenerate empty markers) and every
line, the classifier's loop iteration labels the line by the spec's exact
precedence — blank first; then, when a block pair exists, the four
block-comment cases in order with the stated flag updates; then the
line-comment prefix check; else code.  In particular the four-line
block-comment scenario under the `/* ... */` + `//` grammar yields
total 4, code 1, comment 3, blank 0. -/
theorem C1_classifier_precedence :
    (∀ config : LanguageConfig, WFgrammar config →
      ∀ (s : CountState) (line : String),
        processLine config s line
          = applyLabel s (specClassify config s.in_block_comment line))
    ∧ (count_lines_in_file "en" "r/A.java"
        { name := "A.java",
          content := some ["/* start", "still comment", "end */", "int x;"],
          err := "" }).fst
      = some { language := "java", total_lines := 4, code_lines := 1,
               comment_lines := 3, blank_lines := 0 } :=
  ⟨fun config hwf s line => refine_step config hwf s line, by decide⟩

/-- Witness for C1: the refinement instantiated at the java grammar on a
concrete block-comment opening line. -/
theorem C1_witness :
    WFgrammar { extensions := [".java"], line_comment := some "//",
                block_comment_start := some "/*", block_comment_end := some "*/" }
    ∧ processLine
        { extensions := [".java"], line_comment := some "//",
          block_comment_start := some "/*", block_comment_end := some "*/" }
        { in_block_comment := false, blank_lines := 0, comment_lines := 0,
          code_lines := 0 }
        "/* start"
      = applyLabel
          { in_block_comment := false, blank_lines := 0, comment_lines := 0,
            code_lines := 0 }
          (specClassify
            { extensions := [".java"], line_comment := some "//",
              block_comment_start := some "/*", block_comment_end := some "*/" }
            false "/* start") :=
  ⟨⟨by decide, by decide, by decide⟩,
    C1_classifier_precedence.1 _ ⟨by decide, by decide, by decide⟩ _ _⟩

/-- Claim C2: every `FileResult` returned by `count_lines_in_file` satisfies
`total_lines = code_lines + comment_lines + blank_lines`, and its
`total_lines` equals the number of input lines. -/
theorem C2_total_invariant (current file_path : String) (f : FileEntry)
    (r : FileResult) (ws : List String)
    (h : count_lines_in_file current file_path f = (some r, ws)) :
    r.total_lines = r.code_lines + r.comment_lines + r.blank_lines
    ∧ ∀ lines, f.content = some lines → r.total_lines = lines.length := by
  cases hc : f.content with
  | none => simp [count_lines_in_file, hc] at h
  | some lines =>
    simp only [count_lines_in_file, hc] at h
    split at h
    · simp at h
    · rename_i language config hfind
      simp only [Prod.mk.injEq, Option.some.injEq] at h
      obtain ⟨hr, hws⟩ := h
      subst hr
      constructor
      · have := foldl_processLine_sum config lines
          { in_block_comment := false, blank_lines := 0, comment_lines := 0,
            code_lines := 0 }
        simp only [classify]
        simp at this
        omega
      · intro lines2 h2
        cases h2
        rfl

/-- Witness for C2: a concrete three-line python file; its result
satisfies the invariant. -/
theorem C2_witness :
    count_lines_in_file "en" "proj/a.py"
        { name := "a.py", content := some ["x = 1", "", "# c"], err := "" }
      = (some { language := "python", total_lines := 3, code_lines := 1,
                comment_lines := 1, blank_lines := 1 }, [])
    ∧ (3 : Nat) = 1 + 1 + 1
    ∧ ∀ lines, (FileEntry.mk "a.py" (some ["x = 1", "", "# c"]) "").content
          = some lines → (3 : Nat) = lines.length := by
  refine ⟨by decide, ?_, ?_⟩
  · exact (C2_total_invariant "en" "proj/a.py"
      { name := "a.py", content := some ["x = 1", "", "# c"], err := "" }
      { language := "python", total_lines := 3, code_lines := 1,
        comment_lines := 1, blank_lines := 1 } [] (by decide)).1
  · exact (C2_total_invariant "en" "proj/a.py"
      { name := "a.py", content := some ["x = 1", "", "# c"], err := "" }
      { language := "python", total_lines := 3, code_lines := 1,
        comment_lines := 1, blank_lines := 1 } [] (by decide)).2

/-- The result part of `count_lines_in_file` does not depend on the
locale or the path (they only shape the warning text). -/
theorem count_fst_const (c1 c2 p1 p2 : String) (f : FileEntry) :
    (count_lines_in_file c1 p1 f).fst = (count_lines_in_file c2 p2 f).fst := by
  cases hc : f.content <;> simp [count_lines_in_file, hc]

/-- One file's effect on the accumulators is `statsStep`. -/
theorem processFile_stats_step (current : String) (incl : Option (List String))
    (root : String) (st : ScanState) (f : FileEntry) :
    ((processFile current incl root st f).stats,
      (processFile current incl root st f).total_stats)
      = statsStep incl (st.stats, st.total_stats) f := by
  unfold processFile statsStep
  by_cases hskip : skipByInclude incl (pathSuffix f.name) = true
  · simp [hskip]
  · simp only [Bool.not_eq_true] at hskip
    simp only [hskip, Bool.false_eq_true, if_false]
    rw [count_fst_const "en" current "" (root ++ "/" ++ f.name) f]
    cases hr : count_lines_in_file current (root ++ "/" ++ f.name) f with
    | mk fst ws =>
      cases fst with
      | none => simp
      | some r => simp

/-- The accumulators of a file fold are the `statsStep` fold. -/
theorem foldl_processFile_stats (current : String) (incl : Option (List String))
    (root : String) :
    ∀ (l : List FileEntry) (st : ScanState),
      ((l.foldl (processFile current incl root) st).stats,
        (l.foldl (processFile current incl root) st).total_stats)
        = l.foldl (statsStep incl) (st.stats, st.total_stats) := by
  intro l
  induction l with
  | nil => intro st; rfl
  | cons f fs ih =>
    intro st
    simp only [List.foldl_cons]
    rw [ih, processFile_stats_step]

/-- Merging two results into a row commutes. -/
theorem bumpCounts_comm (c : Counts) (r1 r2 : FileResult) :
    bumpCounts (bumpCounts c r1) r2 = bumpCounts (bumpCounts c r2) r1 := by
  cases c with
  | mk v w x y z =>
    simp [bumpCounts, Counts.mk.injEq]
    omega

/-- Per-file accumulator effects commute. -/
theorem statsStep_comm (incl : Option (List String))
    (p : (String → Counts) × Counts) (a b : FileEntry) :
    statsStep incl (statsStep incl p a) b
      = statsStep incl (statsStep incl p b) a := by
  unfold statsStep
  by_cases ha : skipByInclude incl (pathSuffix a.name) = true <;>
    by_cases hb : skipByInclude incl (pathSuffix b.name) = true
  · simp only [if_pos ha, if_pos hb]
  · simp only [if_pos ha, if_neg hb]
  · simp only [if_neg ha, if_pos hb]
  · simp only [if_neg ha, if_neg hb]
    cases hra : (count_lines_in_file "en" "" a).fst with
    | none => cases hrb : (count_lines_in_file "en" "" b).fst <;> rfl
    | some ra =>
      cases hrb : (count_lines_in_file "en" "" b).fst with
      | none => rfl
      | some rb =>
        refine Prod.ext ?_ ?_
        · funext l
          rcases eq_or_ne l ra.language with h1 | h1 <;>
            rcases eq_or_ne l rb.language with h2 | h2
          · simp only [if_pos h1, if_pos h2]
            exact bumpCounts_comm (p.fst l) ra rb
          · simp only [if_pos h1, if_neg h2]
          · simp only [if_neg h1, if_pos h2]
          · simp only [if_neg h1, if_neg h2]
        · exact bumpCounts_comm p.snd ra rb

/-- A fold by a self-commuting step is invariant under permutation. -/
theorem foldl_perm_of_comm {α β : Type} (g : β → α → β)
    (hc : ∀ (b : β) (a1 a2 : α), g (g b a1) a2 = g (g b a2) a1) :
    ∀ {l1 l2 : List α}, l1.Perm l2 → ∀ b, l1.foldl g b = l2.foldl g b := by
  intro l1 l2 hp
  induction hp with
  | nil => intro b; rfl
  | cons x p ih => intro b; simp only [List.foldl_cons]; exact ih _
  | swap x y l => intro b; simp only [List.foldl_cons]; rw [hc]
  | trans p1 p2 ih1 ih2 => intro b; rw [ih1, ih2]

/-- Claim C7: processing a fixed set of files in any order yields
identical per-language and total accumulators: the per-file merge is
commutative, so any permutation of the processing order gives the same
final stats. -/
theorem C7_order_independence (current : String) (incl : Option (List String))
    (root : String) (l1 l2 : List FileEntry) (st : ScanState)
    (hp : l1.Perm l2) :
    (∀ lang, (l1.foldl (processFile current incl root) st).stats lang
        = (l2.foldl (processFile current incl root) st).stats lang)
    ∧ (l1.foldl (processFile current incl root) st).total_stats
      = (l2.foldl (processFile current incl root) st).total_stats := by
  have h1 := foldl_processFile_stats current incl root l1 st
  have h2 := foldl_processFile_stats current incl root l2 st
  have hp2 := foldl_perm_of_comm (statsStep incl) (statsStep_comm incl) hp
    (st.stats, st.total_stats)
  have key := (h1.trans hp2).trans h2.symm
  exact ⟨fun lang => congrFun (congrArg Prod.fst key) lang,
    congrArg Prod.snd key⟩

/-- Witness for C7: a two-file directory processed in both orders. -/
theorem C7_witness :
    (([⟨"a.py", some ["x = 1"], ""⟩, ⟨"b.java", some ["// c"], ""⟩] :
        List FileEntry).Perm
      ([⟨"b.java", some ["// c"], ""⟩, ⟨"a.py", some ["x = 1"], ""⟩] :
        List FileEntry))
    ∧ (List.foldl (processFile "en" none "r") initState
        [⟨"a.py", some ["x = 1"], ""⟩, ⟨"b.java", some ["// c"], ""⟩]).stats
          "python"
      = (List.foldl (processFile "en" none "r") initState
          [⟨"b.java", some ["// c"], ""⟩, ⟨"a.py", some ["x = 1"], ""⟩]).stats
            "python"
    ∧ (List.foldl (processFile "en" none "r") initState
        [⟨"a.py", some ["x = 1"], ""⟩, ⟨"b.java", some ["// c"], ""⟩]).total_stats
      = (List.foldl (processFile "en" none "r") initState
          [⟨"b.java", some ["// c"], ""⟩,
            ⟨"a.py", some ["x = 1"], ""⟩]).total_stats := by
  have hp : (([⟨"a.py", some ["x = 1"], ""⟩, ⟨"b.java", some ["// c"], ""⟩] :
      List FileEntry)).Perm
      ([⟨"b.java", some ["// c"], ""⟩, ⟨"a.py", some ["x = 1"], ""⟩] :
        List FileEntry) := List.Perm.swap _ _ _
  have h := C7_order_independence "en" none "r" _ _ initState hp
  exact ⟨hp, h.1 "python", h.2⟩

/-- Processing a file never discards warnings. -/
theorem processFile_warnings_mono (current : String)
    (incl : Option (List String)) (root : String) (st : ScanState)
    (f : FileEntry) (w : String) (h : w ∈ st.warnings) :
    w ∈ (processFile current incl root st f).warnings := by
  unfold processFile
  dsimp only
  split_ifs with hskip
  · exact h
  · cases hr : count_lines_in_file current (root ++ "/" ++ f.name) f with
    | mk fst ws =>
      cases fst with
      | none => exact List.mem_append.mpr (Or.inl h)
      | some r => exact List.mem_append.mpr (Or.inl h)

/-- A file fold never discards warnings. -/
theorem foldl_processFile_warnings_mono (current : String)
    (incl : Option (List String)) (root : String) :
    ∀ (l : List FileEntry) (st : ScanState) (w : String),
      w ∈ st.warnings →
      w ∈ (l.foldl (processFile current incl root) st).warnings := by
  intro l
  induction l with
  | nil => intro st w h; exact h
  | cons f fs ih =>
    intro st w h
    exact ih _ w (processFile_warnings_mono current incl root st f w h)

/-- An unreadable, non-skipped file only appends its warning. -/
theorem processFile_unreadable (current : String) (incl : Option (List String))
    (root : String) (st : ScanState) (f : FileEntry)
    (hf : f.content = none)
    (hs : skipByInclude incl (pathSuffix f.name) = false) :
    processFile current incl root st f
      = { st with warnings := st.warnings
            ++ [_t current "Failed to read file" ++ " " ++ (root ++ "/" ++ f.name)
                ++ ": " ++ f.err] } := by
  unfold processFile count_lines_in_file
  rw [hf]
  simp [hs]

/-- An unreadable file has no accumulator effect. -/
theorem statsStep_unreadable (incl : Option (List String))
    (p : (String → Counts) × Counts) (f : FileEntry) (hf : f.content = none) :
    statsStep incl p f = p := by
  unfold statsStep count_lines_in_file
  rw [hf]
  split_ifs <;> rfl

/-- Claim C4: a file whose read fails produces a warning naming its path,
contributes nothing to any per-language or total accumulator, and the
scan continues with the remaining files. -/
theorem C4_unreadable_file (current : String) (incl : Option (List String))
    (root : String) (l1 l2 : List FileEntry) (f : FileEntry) (st : ScanState)
    (hf : f.content = none)
    (hs : skipByInclude incl (pathSuffix f.name) = false) :
    (∀ lang,
      ((l1 ++ f :: l2).foldl (processFile current incl root) st).stats lang
        = ((l1 ++ l2).foldl (processFile current incl root) st).stats lang)
    ∧ ((l1 ++ f :: l2).foldl (processFile current incl root) st).total_stats
      = ((l1 ++ l2).foldl (processFile current incl root) st).total_stats
    ∧ (_t current "Failed to read file" ++ " " ++ (root ++ "/" ++ f.name)
        ++ ": " ++ f.err)
      ∈ ((l1 ++ f :: l2).foldl (processFile current incl root) st).warnings := by
  have key : ((l1 ++ f :: l2).foldl (statsStep incl) (st.stats, st.total_stats))
      = ((l1 ++ l2).foldl (statsStep incl) (st.stats, st.total_stats)) := by
    rw [List.foldl_append, List.foldl_append, List.foldl_cons,
      statsStep_unreadable incl _ f hf]
  have hA := foldl_processFile_stats current incl root (l1 ++ f :: l2) st
  have hB := foldl_processFile_stats current incl root (l1 ++ l2) st
  have hAB := (hA.trans key).trans hB.symm
  refine ⟨fun lang => congrFun (congrArg Prod.fst hAB) lang,
    congrArg Prod.snd hAB, ?_⟩
  rw [List.foldl_append, List.foldl_cons]
  apply foldl_processFile_warnings_mono
  rw [processFile_unreadable current incl root _ f hf hs]
  exact List.mem_append.mpr (Or.inr (by simp))

/-- Witness for C4: an unreadable file between no predecessor and one
readable successor. -/
theorem C4_witness :
    (([] ++ FileEntry.mk "bad.py" none "boom"
        :: [FileEntry.mk "a.py" (some ["x = 1"]) ""]).foldl
        (processFile "en" none "r") initState).stats "python"
      = (([] ++ [FileEntry.mk "a.py" (some ["x = 1"]) ""]).foldl
          (processFile "en" none "r") initState).stats "python"
    ∧ (([] ++ FileEntry.mk "bad.py" none "boom"
        :: [FileEntry.mk "a.py" (some ["x = 1"]) ""]).foldl
        (processFile "en" none "r") initState).total_stats
      = (([] ++ [FileEntry.mk "a.py" (some ["x = 1"]) ""]).foldl
          (processFile "en" none "r") initState).total_stats
    ∧ (_t "en" "Failed to read file" ++ " " ++ ("r" ++ "/" ++ "bad.py")
        ++ ": " ++ "boom")
      ∈ (([] ++ FileEntry.mk "bad.py" none "boom"
          :: [FileEntry.mk "a.py" (some ["x = 1"]) ""]).foldl
          (processFile "en" none "r") initState).warnings := by
  have h := C4_unreadable_file "en" none "r" []
    [FileEntry.mk "a.py" (some ["x = 1"]) ""]
    (FileEntry.mk "bad.py" none "boom") initState rfl rfl
  exact ⟨h.1 "python", h.2.1, h.2.2⟩

/-- A file skipped by the include filter leaves the state unchanged. -/
theorem processFile_skip (current : String) (incl : Option (List String))
    (root : String) (st : ScanState) (f : FileEntry)
    (hs : skipByInclude incl (pathSuffix f.name) = true) :
    processFile current incl root st f = st := by
  unfold processFile
  rw [if_pos hs]

/-- Claim C6: with a non-empty `include_extensions` set, a file whose
lowercased extension is not a member is skipped entirely (the state is
unchanged), and scanning a directory of `.py` and `.java` files with
`{.py}` equals scanning only its `.py` files. -/
theorem C6_include_restriction :
    (∀ (current root : String) (exts : List String) (st : ScanState)
      (f : FileEntry),
      exts ≠ [] → pyLower (pathSuffix f.name) ∉ exts →
      processFile current (some exts) root st f = st)
    ∧ (∀ (current root : String) (l : List FileEntry) (st : ScanState),
      (∀ g ∈ l, pathSuffix g.name = ".py" ∨ pathSuffix g.name = ".java") →
      l.foldl (processFile current (some [".py"]) root) st
        = (l.filter (fun g => pathSuffix g.name == ".py")).foldl
            (processFile current (some [".py"]) root) st) := by
  have hskip : ∀ (current root : String) (exts : List String) (st : ScanState)
      (f : FileEntry), exts ≠ [] → pyLower (pathSuffix f.name) ∉ exts →
      processFile current (some exts) root st f = st := by
    intro current root exts st f hne hnm
    apply processFile_skip
    simp [skipByInclude, hne, hnm, List.isEmpty_iff]
  refine ⟨hskip, ?_⟩
  intro current root l
  induction l with
  | nil => intro st h; rfl
  | cons g gs ih =>
    intro st h
    have hg := h g (List.mem_cons_self g gs)
    rcases hg with hpy | hjava
    · have hkeep : (pathSuffix g.name == ".py") = true := by rw [hpy]; rfl
      simp only [List.filter_cons, hkeep, if_true, List.foldl_cons]
      exact ih _ (fun x hx => h x (List.mem_cons_of_mem g hx))
    · have hdrop : (pathSuffix g.name == ".py") = false := by rw [hjava]; rfl
      simp only [List.filter_cons, hdrop, Bool.false_eq_true, if_false,
        List.foldl_cons]
      rw [hskip current root [".py"] st g (by simp) (by rw [hjava]; decide)]
      exact ih _ (fun x hx => h x (List.mem_cons_of_mem g hx))

/-- Witness for C6: a skipped `.java` file and a concrete two-file
directory filtered to `.py`. -/
theorem C6_witness :
    processFile "en" (some [".py"]) "r" initState
        (FileEntry.mk "b.java" (some ["// c"]) "")
      = initState
    ∧ ([⟨"a.py", some ["x = 1"], ""⟩, ⟨"b.java", some ["// c"], ""⟩] :
        List FileEntry).foldl (processFile "en" (some [".py"]) "r") initState
      = (([⟨"a.py", some ["x = 1"], ""⟩, ⟨"b.java", some ["// c"], ""⟩] :
          List FileEntry).filter (fun g => pathSuffix g.name == ".py")).foldl
          (processFile "en" (some [".py"]) "r") initState := by
  refine ⟨C6_include_restriction.1 "en" "r" [".py"] initState
    (FileEntry.mk "b.java" (some ["// c"]) "") (by decide) (by decide), ?_⟩
  exact C6_include_restriction.2 "en" "r" _ initState (by decide)

/-- Walking a concatenation of sibling forests composes. -/
theorem walkForest_append (current : String) (incl : Option (List String))
    (excl : List String) (path : String) :
    ∀ (g1 g2 : DirForest) (st : ScanState),
      walkForest current incl excl path (g1.append g2) st
        = walkForest current incl excl path g2
            (walkForest current incl excl path g1 st)
  | DirForest.nil, g2, st => rfl
  | DirForest.cons d ds, g2, st => by
    simp only [DirForest.append, walkForest]
    exact walkForest_append current incl excl path ds g2 _

/-- Claim C5: a subdirectory whose name is in the exclusion set is pruned
before descent — the walk of a tree containing it equals the walk of the
tree with that whole subtree removed — and, with the default exclusion
set, a `.git` subtree contributes nothing to `scan_directory`. -/
theorem C5_exclusion_pruning :
    (∀ (current : String) (incl : Option (List String)) (excl : List String)
      (path nm : String) (files : List FileEntry) (pre post : DirForest)
      (d : DirTree) (st : ScanState),
      excl.contains d.name = true →
      walkTree current incl excl path
          (DirTree.node nm files (pre.append (DirForest.cons d post))) st
        = walkTree current incl excl path
            (DirTree.node nm files (pre.append post)) st)
    ∧ (∀ (current dirpath nm : String) (incl : Option (List String))
      (files : List FileEntry) (pre post : DirForest) (g : DirTree),
      g.name = ".git" →
      scan_directory current
          (some (DirTree.node nm files
            (pre.append (DirForest.cons g post)))) dirpath none incl
        = scan_directory current
            (some (DirTree.node nm files (pre.append post))) dirpath none incl) := by
  have main : ∀ (current : String) (incl : Option (List String))
      (excl : List String) (path nm : String) (files : List FileEntry)
      (pre post : DirForest) (d : DirTree) (st : ScanState),
      excl.contains d.name = true →
      walkTree current incl excl path
          (DirTree.node nm files (pre.append (DirForest.cons d post))) st
        = walkTree current incl excl path
            (DirTree.node nm files (pre.append post)) st := by
    intro current incl excl path nm files pre post d st hd
    simp only [walkTree]
    rw [walkForest_append, walkForest_append]
    simp only [walkForest]
    rw [if_pos hd]
  refine ⟨main, ?_⟩
  intro current dirpath nm incl files pre post g hg
  simp only [scan_directory]
  apply main
  rw [hg]
  decide

/-- Witness for C5: a `.git` directory holding a python file is pruned. -/
theorem C5_witness :
    walkTree "en" none default_exclude_dirs "root"
        (DirTree.node "top" []
          (DirForest.nil.append (DirForest.cons
            (DirTree.node ".git" [FileEntry.mk "x.py" (some ["import os"]) ""]
              DirForest.nil) DirForest.nil))) initState
      = walkTree "en" none default_exclude_dirs "root"
          (DirTree.node "top" [] (DirForest.nil.append DirForest.nil))
          initState :=
  C5_exclusion_pruning.1 "en" none default_exclude_dirs "root" "top" []
    DirForest.nil DirForest.nil
    (DirTree.node ".git" [FileEntry.mk "x.py" (some ["import os"]) ""]
      DirForest.nil) initState (by decide)

/-- Claim C8 (code bug per the spec): on a root path that does not exist,
`os.walk` yields no entries and its default `onerror=None` swallows the
error, so `scan_directory` returns with the accumulators untouched and no
warning — a silently empty report instead of the fatal condition the spec
requires. -/
theorem C8_invalid_root_silent :
    scan_directory "en" none "/path/that/does/not/exist" none none = initState
    ∧ (scan_directory "en" none "/path/that/does/not/exist" none none).warnings
      = []
    ∧ (scan_directory "en" none "/path/that/does/not/exist" none
        none).total_stats = Counts.zero
    ∧ (scan_directory "en" none "/path/that/does/not/exist" none none).stats
        "python" = Counts.zero :=
  ⟨rfl, rfl, rfl, rfl⟩

/-- The accumulators of a file fold do not depend on locale or path. -/
theorem foldl_processFile_locale (c1 c2 root1 root2 : String)
    (incl : Option (List String)) (l : List FileEntry) (st1 st2 : ScanState)
    (hs : st1.stats = st2.stats) (ht : st1.total_stats = st2.total_stats) :
    (l.foldl (processFile c1 incl root1) st1).stats
        = (l.foldl (processFile c2 incl root2) st2).stats
      ∧ (l.foldl (processFile c1 incl root1) st1).total_stats
        = (l.foldl (processFile c2 incl root2) st2).total_stats := by
  have h1 := foldl_processFile_stats c1 incl root1 l st1
  have h2 := foldl_processFile_stats c2 incl root2 l st2
  rw [hs, ht] at h1
  have key := h1.trans h2.symm
  exact ⟨congrArg Prod.fst key, congrArg Prod.snd key⟩

mutual
/-- The accumulators of a tree walk do not depend on the locale. -/
theorem walkTree_locale (c1 c2 : String) (incl : Option (List String))
    (excl : List String) :
    ∀ (path : String) (t : DirTree) (st1 st2 : ScanState),
      st1.stats = st2.stats → st1.total_stats = st2.total_stats →
      (walkTree c1 incl excl path t st1).stats
          = (walkTree c2 incl excl path t st2).stats
        ∧ (walkTree c1 incl excl path t st1).total_stats
          = (walkTree c2 incl excl path t st2).total_stats
  | path, DirTree.node nm files subdirs, st1, st2, hs, ht => by
    simp only [walkTree]
    have h := foldl_processFile_locale c1 c2 path path incl files st1 st2 hs ht
    exact walkForest_locale c1 c2 incl excl path subdirs _ _ h.1 h.2

/-- The accumulators of a forest walk do not depend on the locale. -/
theorem walkForest_locale (c1 c2 : String) (incl : Option (List String))
    (excl : List String) :
    ∀ (path : String) (g : DirForest) (st1 st2 : ScanState),
      st1.stats = st2.stats → st1.total_stats = st2.total_stats →
      (walkForest c1 incl excl path g st1).stats
          = (walkForest c2 incl excl path g st2).stats
        ∧ (walkForest c1 incl excl path g st1).total_stats
          = (walkForest c2 incl excl path g st2).total_stats
  | _, DirForest.nil, st1, st2, hs, ht => ⟨hs, ht⟩
  | path, DirForest.cons d ds, st1, st2, hs, ht => by
    simp only [walkForest]
    by_cases hd : excl.contains d.name = true
    · rw [if_pos hd, if_pos hd]
      exact walkForest_locale c1 c2 incl excl path ds st1 st2 hs ht
    · rw [if_neg hd, if_neg hd]
      have h := walkTree_locale c1 c2 incl excl (path ++ "/" ++ d.name) d st1
        st2 hs ht
      exact walkForest_locale c1 c2 incl excl path ds _ _ h.1 h.2
end

/-- Claim C9: two runs over the same tree that differ only in the
selected locale produce identical per-language and total accumulators;
the locale only changes warning label text. -/
theorem C9_locale_independence (c1 c2 dirpath : String)
    (fs_root : Option DirTree) (excl : Option (List String))
    (incl : Option (List String)) :
    (∀ lang, (scan_directory c1 fs_root dirpath excl incl).stats lang
        = (scan_directory c2 fs_root dirpath excl incl).stats lang)
    ∧ (scan_directory c1 fs_root dirpath excl incl).total_stats
      = (scan_directory c2 fs_root dirpath excl incl).total_stats := by
  cases fs_root with
  | none => exact ⟨fun _ => rfl, rfl⟩
  | some t =>
    cases excl with
    | none =>
      have h := walkTree_locale c1 c2 incl default_exclude_dirs dirpath t
        initState initState rfl rfl
      exact ⟨fun lang => congrFun h.1 lang, h.2⟩
    | some e =>
      have h := walkTree_locale c1 c2 incl e dirpath t initState initState
        rfl rfl
      exact ⟨fun lang => congrFun h.1 lang, h.2⟩

/-- Claim C10: a readable empty file with a recognized extension yields a
`FileResult` with all four counts 0, and merging it bumps the matching
language's file count and the total file count by exactly 1 while leaving
every line-count field unchanged. -/
theorem C10_empty_file (current root : String) (incl : Option (List String))
    (st : ScanState) (f : FileEntry) (language : String)
    (hc : f.content = some [])
    (hl : get_language_by_extension (pathSuffix f.name) = some language)
    (hs : skipByInclude incl (pathSuffix f.name) = false) :
    (count_lines_in_file current (root ++ "/" ++ f.name) f).fst
        = some { language := language, total_lines := 0, code_lines := 0,
                 comment_lines := 0, blank_lines := 0 }
    ∧ (processFile current incl root st f).stats language
        = { st.stats language with files := (st.stats language).files + 1 }
    ∧ (∀ l, l ≠ language →
        (processFile current incl root st f).stats l = st.stats l)
    ∧ (processFile current incl root st f).total_stats
        = { st.total_stats with files := st.total_stats.files + 1 } := by
  unfold get_language_by_extension at hl
  cases hfind : language_configs.find?
      (fun p => p.snd.extensions.contains (pyLower (pathSuffix f.name))) with
  | none => rw [hfind] at hl; cases hl
  | some p =>
    obtain ⟨lang0, config⟩ := p
    rw [hfind] at hl
    simp only [Option.map_some', Option.some.injEq] at hl
    subst hl
    have hcount : count_lines_in_file current (root ++ "/" ++ f.name) f
        = (some { language := lang0, total_lines := 0, code_lines := 0,
                  comment_lines := 0, blank_lines := 0 }, []) := by
      simp only [count_lines_in_file, hc, hfind]
      rfl
    refine ⟨by rw [hcount], ?_, ?_, ?_⟩
    · unfold processFile
      dsimp only
      simp only [hs, Bool.false_eq_true, if_false, hcount]
      simp [bumpCounts]
    · intro l hl2
      unfold processFile
      dsimp only
      simp only [hs, Bool.false_eq_true, if_false, hcount]
      simp [bumpCounts, hl2]
    · unfold processFile
      dsimp only
      simp only [hs, Bool.false_eq_true, if_false, hcount]
      simp [bumpCounts]

/-- Witness for C10: an empty `.py` file merged into fresh accumulators. -/
theorem C10_witness :
    (count_lines_in_file "en" "r/empty.py"
        (FileEntry.mk "empty.py" (some []) "")).fst
      = some { language := "python", total_lines := 0, code_lines := 0,
               comment_lines := 0, blank_lines := 0 }
    ∧ (processFile "en" none "r" initState
        (FileEntry.mk "empty.py" (some []) "")).stats "python"
      = { initState.stats "python" with
          files := (initState.stats "python").files + 1 }
    ∧ (processFile "en" none "r" initState
        (FileEntry.mk "empty.py" (some []) "")).stats "java"
      = initState.stats "java"
    ∧ (processFile "en" none "r" initState
        (FileEntry.mk "empty.py" (some []) "")).total_stats
      = { initState.total_stats with
          files := initState.total_stats.files + 1 } := by
  have h := C10_empty_file "en" "r" none initState
    (FileEntry.mk "empty.py" (some []) "") "python" rfl (by decide) rfl
  exact ⟨h.1, h.2.1, h.2.2.1 "java" (by decide), h.2.2.2⟩

/-- The table's first-match lookup equals the spec-side linear scan. -/
theorem find_map_resolveSpec (extension : String) :
    ∀ l : List (String × LanguageConfig),
      (l.find? (fun p =>
          p.snd.extensions.contains (pyLower extension))).map Prod.fst
        = resolveSpec extension l := by
  intro l
  induction l with
  | nil => rfl
  | cons p rest ih =>
    obtain ⟨lang, config⟩ := p
    by_cases hcp : pyLower extension ∈ config.extensions
    · simp [List.find?_cons, resolveSpec, hcp]
    · simp [List.find?_cons, resolveSpec, hcp]
      simpa using ih

/-- Claim C3: registry resolution lowercases the input, scans the
grammars in registration order and returns the first whose extension set
contains it (the spec-side linear scan); resolution depends only on the
lowercased extension, so an uppercased variant of a file's suffix
resolves to the same grammar and the file classifies identically. -/
theorem C3_registry_resolution :
    (∀ extension, get_language_by_extension extension
        = resolveSpec extension language_configs)
    ∧ (∀ s t, pyLower s = pyLower t →
        get_language_by_extension s = get_language_by_extension t)
    ∧ (∀ (current path1 path2 name1 name2 : String)
        (content : Option (List String)) (e1 e2 : String),
        pyLower (pathSuffix name1) = pyLower (pathSuffix name2) →
        (count_lines_in_file current path1
            { name := name1, content := content, err := e1 }).fst
          = (count_lines_in_file current path2
            { name := name2, content := content, err := e2 }).fst) := by
  refine ⟨?_, ?_, ?_⟩
  · intro extension
    exact find_map_resolveSpec extension language_configs
  · intro s t h
    unfold get_language_by_extension
    rw [h]
  · intro current path1 path2 name1 name2 content e1 e2 h
    cases content with
    | none => rfl
    | some lines =>
      simp only [count_lines_in_file]
      rw [h]

/-- Witness for C3: `.PY` resolves like `.py` (to python), and `FOO.PY`
classifies like `foo.py`. -/
theorem C3_witness :
    get_language_by_extension ".PY" = get_language_by_extension ".py"
    ∧ get_language_by_extension ".py" = some "python"
    ∧ (count_lines_in_file "en" "r/FOO.PY"
        { name := "FOO.PY", content := some ["x = 1"], err := "" }).fst
      = (count_lines_in_file "en" "r/foo.py"
        { name := "foo.py", content := some ["x = 1"], err := "" }).fst :=
  ⟨C3_registry_resolution.2.1 ".PY" ".py" (by decide),
    by decide,
    C3_registry_resolution.2.2 "en" "r/FOO.PY" "r/foo.py" "FOO.PY" "foo.py"
      (some ["x = 1"]) "" "" (by decide)⟩

end CodeLineCounter
